import Mathlib

/-!
Verification development for the bestsellers extraction engine
(`scrape_bestsellers_updated.py`).

Text is embedded as `List Char` (a faithful model of Python `str` for the
string operations used: slicing, `split`, `join`, `strip`, substring tests).
Python dicts holding product records are embedded as association lists from
`String` keys to text values, since the code distinguishes records by which
keys they carry.  Effectful page-handle operations (navigation, waits,
locator counts, extraction sweeps) are supplied by environment structures:
each field records the outcome the browser would deliver at that call site,
with `Except` capturing the possibility that the Playwright call raises.
-/

/-- Text values: Python `str` as a list of characters. -/
abbrev Str := List Char

/-- The characters Python's `str.split()` / `str.strip()` treat as whitespace
(`str.isspace`): ASCII whitespace plus the Unicode space separators. -/
def isPySpace (c : Char) : Bool :=
  c = ' ' ∨ c = '\t' ∨ c = '\n' ∨ c = '\r' ∨ c = '\x0b' ∨ c = '\x0c' ∨
  c = '\x1c' ∨ c = '\x1d' ∨ c = '\x1e' ∨ c = '\x1f' ∨ c = '\u0085' ∨
  c = '\u00a0' ∨ c = '\u1680' ∨ c = '\u2000' ∨ c = '\u2001' ∨ c = '\u2002' ∨
  c = '\u2003' ∨ c = '\u2004' ∨ c = '\u2005' ∨ c = '\u2006' ∨ c = '\u2007' ∨
  c = '\u2008' ∨ c = '\u2009' ∨ c = '\u200a' ∨ c = '\u2028' ∨ c = '\u2029' ∨
  c = '\u202f' ∨ c = '\u205f' ∨ c = '\u3000'

/-- Python `s.split()` (no separator argument): maximal runs of
non-whitespace characters, with empty runs discarded. -/
def pySplit : List Char → List (List Char)
  | [] => []
  | c :: cs =>
    if isPySpace c then pySplit cs
    else
      match cs with
      | [] => [[c]]
      | d :: _ =>
        if isPySpace d then [c] :: pySplit cs
        else (c :: (pySplit cs).headI) :: (pySplit cs).tail

/-- Python `" ".join(tokens)`. -/
def joinSpace : List (List Char) → List Char
  | [] => []
  | [t] => t
  | t :: ts => t ++ ' ' :: joinSpace ts

/-- Python `s.strip()`: drop whitespace from both ends. -/
def pyStrip (l : List Char) : List Char :=
  ((l.dropWhile isPySpace).reverse.dropWhile isPySpace).reverse

/-- Embeds `clean_text` (line 85): `"" if not s else " ".join(s.split()).strip()`. -/
def clean_text (s : Str) : Str :=
  if s = [] then [] else pyStrip (joinSpace (pySplit s))

/-- The digit-run search of `clean_rank` (line 146): Python
`re.search(r"#?(\d+)", text)`, returning group 1 of the first match.
A `#` immediately before the first digit run is absorbed by the optional
prefix; the group is always the maximal digit run starting at the first
digit. -/
def rankSearch : List Char → Option (List Char)
  | [] => none
  | c :: cs =>
    if c.isDigit then some (c :: cs.takeWhile Char.isDigit)
    else if c = '#' then
      match cs with
      | [] => none
      | d :: ds =>
        if d.isDigit then some (d :: ds.takeWhile Char.isDigit)
        else rankSearch (d :: ds)
    else rankSearch cs

/-- Embeds `clean_rank` (lines 142-147). -/
def clean_rank (rank_text : Str) : Str :=
  if rank_text = [] then []
  else
    match rankSearch rank_text with
    | some ds => '#' :: ds
    | none => []

/-- Embeds `clean_product_name` (lines 150-156): clean, then truncate to 500
characters only when longer. -/
def clean_product_name (name : Str) : Str :=
  if name = [] then []
  else if 500 < (clean_text name).length then (clean_text name).take 500
  else clean_text name

/-- Python substring test `pat in l`. -/
def hasSubstr (pat : List Char) : List Char → Bool
  | [] => decide (pat = [])
  | c :: cs => pat.isPrefixOf (c :: cs) || hasSubstr pat cs

/-- Embeds `validate_product_link` (lines 159-163): keep the link only if it
contains the `/dp/` product-path marker. -/
def validate_product_link (link : Str) : Str :=
  if link = [] then []
  else if hasSubstr ['/', 'd', 'p', '/'] link then link else []

/-- Embeds `clean_rating` (lines 166-171): clean then truncate to 100 characters
(unconditional slice). -/
def clean_rating (rating_text : Str) : Str :=
  if rating_text = [] then [] else (clean_text rating_text).take 100

/-- Embeds `clean_price` (lines 174-178). -/
def clean_price (price_text : Str) : Str :=
  if price_text = [] then [] else clean_text price_text

/-- A product record: a Python dict with string keys and string values,
embedded as an association list (first binding of a key wins, as in the
dict literals the code builds). -/
abbrev Item := List (String × Str)

/-- Python `item.get(k, "")` (also models `item.get(k)` followed by a
truthiness test, since a missing key and `""` behave alike there). -/
def getField : Item → String → Str
  | [], _ => []
  | (k', v) :: rest, k => if k' = k then v else getField rest k

/-- Python `{k: v for k, v in item.items() if k != key}`. -/
def removeKey : Item → String → Item
  | [], _ => []
  | (k', v) :: rest, k =>
    if k' = k then removeKey rest k else (k', v) :: removeKey rest k

/-- The cleaned five-field record built at lines 115-121 of
`validate_and_clean_items`. -/
def cleanItem (item : Item) : Item :=
  [("rank", clean_rank (getField item "rank")),
   ("name", clean_product_name (getField item "name")),
   ("link", validate_product_link (getField item "link")),
   ("rating", clean_rating (getField item "rating")),
   ("price", clean_price (getField item "price"))]

/-- The per-record loop of `validate_and_clean_items` (lines 109-129):
skip records with missing/empty name or link, clean the fields, keep the
record only if the cleaned name and link are non-empty and the cleaned
name is longer than 10 characters. -/
def validatePass : List Item → List Item
  | [] => []
  | item :: rest =>
    if getField item "name" = [] ∨ getField item "link" = [] then
      validatePass rest
    else if getField (cleanItem item) "name" ≠ [] ∧
        getField (cleanItem item) "link" ≠ [] ∧
        10 < (getField (cleanItem item) "name").length then
      cleanItem item :: validatePass rest
    else validatePass rest

/-- The link-based intra-page dedup of `validate_and_clean_items`
(lines 131-139): first occurrence of each link wins. -/
def dedupLinks : List Item → List Str → List Item
  | [], _ => []
  | item :: rest, seen =>
    if getField item "link" ∈ seen then dedupLinks rest seen
    else item :: dedupLinks rest (getField item "link" :: seen)

/-- Embeds `validate_and_clean_items` (lines 103-139). -/
def validate_and_clean_items (items : List Item) : List Item :=
  dedupLinks (validatePass items) []

/-- The loop of `deduplicate_products` (lines 620-637): prefer an unseen
asin as the dedup key, else an unseen link; records with neither are
dropped; the emitted copy strips the `asin` entry. -/
def dedupGo : List Item → List Str → List Str → List Item
  | [], _, _ => []
  | item :: rest, seenLinks, seenAsins =>
    if getField item "asin" ≠ [] ∧ getField item "asin" ∉ seenAsins then
      removeKey item "asin" ::
        dedupGo rest seenLinks (getField item "asin" :: seenAsins)
    else if getField item "link" ≠ [] ∧ getField item "link" ∉ seenLinks then
      removeKey item "asin" ::
        dedupGo rest (getField item "link" :: seenLinks) seenAsins
    else dedupGo rest seenLinks seenAsins

/-- Embeds `deduplicate_products` (lines 612-639). -/
def deduplicate_products (items : List Item) : List Item :=
  dedupGo items [] []

/-- Number of records in `items` whose `link` field equals `l`. -/
def linkCount (l : Str) (items : List Item) : Nat :=
  items.countP (fun it => decide (getField it "link" = l))

/-- Environment for `scroll_to_bottom_enhanced` (lines 284-335).
`initWait` is the combined outcome of the initial wait block (lines
291-296): `.ok` if the network-idle wait succeeded or the DOM-ready
fallback succeeded after its timeout; `.error` if the fallback wait itself
raised (that call sits inside the bare `except` handler and is not
guarded).  `counts i` is the container count the page reports at the i-th
scroll-pause-measure step (line 308); `finalCount` is the fresh
measurement taken after the loop (line 332).  Scrolls and fixed pauses
only consume time and are not modelled. -/
structure ScrollEnv where
  initWait : Except Str Unit
  counts : Nat → Nat
  finalCount : Nat

/-- One loop iteration's state update (lines 310-317): on a strict count
increase reset the stability counter, otherwise bump it. -/
def scrollStep (last stable current : Nat) : Nat × Nat :=
  if last < current then (current, 0) else (last, stable + 1)

/-- Number of scroll-pause-measure iterations the loop of lines 302-330
executes, given `fuel` remaining iterations starting at step index `i`
with running state `(last, stable)`; the loop breaks after an iteration
whose updated state satisfies `stable ≥ 2 ∧ current ≥ 20` (line 323). -/
def scrollGo (counts : Nat → Nat) : Nat → Nat → Nat → Nat → Nat
  | 0, _, _, _ => 0
  | fuel + 1, i, last, stable =>
    if 2 ≤ (scrollStep last stable (counts i)).2 ∧ 20 ≤ counts i then 1
    else 1 + scrollGo counts fuel (i + 1) (scrollStep last stable (counts i)).1
        (scrollStep last stable (counts i)).2

/-- Iterations executed by a run with `max_scrolls` budget. -/
def scrollIterations (counts : Nat → Nat) (max_scrolls : Nat) : Nat :=
  scrollGo counts max_scrolls 0 0 0

/-- The `(last_asin_count, stable_iterations)` state before iteration `k`,
for the unbroken evolution of the loop (the break only stops the loop; it
never alters the state updates). -/
def scrollState (counts : Nat → Nat) : Nat → Nat × Nat
  | 0 => (0, 0)
  | k + 1 =>
    scrollStep (scrollState counts k).1 (scrollState counts k).2 (counts k)

/-- The early-exit condition as observed at the end of iteration `k`. -/
abbrev stopCond (counts : Nat → Nat) (k : Nat) : Prop :=
  2 ≤ (scrollState counts (k + 1)).2 ∧ 20 ≤ counts k

/-- What a finished scroll run reports: the function's return value (the
final container count measured at line 332) plus, as instrumentation, how
many loop iterations were executed. -/
structure ScrollResult where
  finalCount : Nat
  iterationsRun : Nat
deriving DecidableEq

/-- Embeds `scroll_to_bottom_enhanced` (lines 284-335): after the initial wait
block, run the bounded scroll loop and return the final fresh count. -/
def scroll_to_bottom_enhanced (env : ScrollEnv) (max_scrolls : Nat) :
    Except Str ScrollResult :=
  match env.initWait with
  | .error e => .error e
  | .ok _ => .ok ⟨env.finalCount, scrollIterations env.counts max_scrolls⟩

/-- Environment for `extract_products_on_page` (lines 501-535), one per
page visit.  `containerCount` is `asin_containers.count()` (line 513);
`asinItems` the records `extract_from_asin_containers_universal` would
return (line 518); `fallbackItems` the records
`extract_using_universal_selectors` would return (line 526).  Each is an
`Except` since the underlying locator calls can raise. -/
structure ExtractEnv where
  scrollEnv : ScrollEnv
  containerCount : Except Str Nat
  asinItems : Except Str (List Item)
  fallbackItems : Except Str (List Item)

/-- Instrumented outcome of `extract_products_on_page`: the returned value
(or the exception), whether the fallback extractor was invoked (the body
of line 522's `if`), the `items` list after the method-1 phase (line 519),
and the list selected at line 529 that goes to validation. -/
structure ExtractTrace where
  result : Except Str (List Item)
  fallbackRan : Bool
  method1Items : List Item
  chosenItems : List Item

/-- Embeds `extract_products_on_page` (lines 501-535), instrumented.  Method 1
runs only when at least 10 containers exist; the fallback runs exactly
when the items list is still shorter than 15, and replaces it only when
strictly longer; the survivor list is validated and cleaned. -/
def extract_products_on_pageT (env : ExtractEnv) : ExtractTrace :=
  match scroll_to_bottom_enhanced env.scrollEnv 8 with
  | .error e => ⟨.error e, false, [], []⟩
  | .ok _ =>
    match env.containerCount with
    | .error e => ⟨.error e, false, [], []⟩
    | .ok cc =>
      match (if 10 ≤ cc then env.asinItems else .ok []) with
      | .error e => ⟨.error e, false, [], []⟩
      | .ok items =>
        if items.length < 15 then
          match env.fallbackItems with
          | .error e => ⟨.error e, true, items, []⟩
          | .ok fb =>
            let chosen := if items.length < fb.length then fb else items
            ⟨.ok (validate_and_clean_items chosen), true, items, chosen⟩
        else ⟨.ok (validate_and_clean_items items), false, items, items⟩

/-- The plain return value of `extract_products_on_page`. -/
def extract_products_on_page (env : ExtractEnv) : Except Str (List Item) :=
  (extract_products_on_pageT env).result

/-- A category entry `{name, url}` as produced by `get_categories`. -/
structure Category where
  name : Str
  url : Str

/-- The `extraction_stats` dict of a `CategoryResult`.  The success path
(lines 748-754) carries `initial_asin_count` and no `error` key; the
error path (lines 764-770) carries `error` and no `initial_asin_count`;
`Option` models key presence. -/
structure ExtractionStats where
  page1_items : Nat
  page2_items : Nat
  total_before_dedup : Nat
  final_unique_items : Nat
  initial_asin_count : Option Nat
  error : Option Str
deriving DecidableEq

/-- The dict returned by `scrape_category`. -/
structure CategoryResult where
  category_link : Str
  category_items : List Item
  extraction_stats : ExtractionStats
deriving DecidableEq

/-- Environment for one `scrape_category` call (lines 671-771).
`gotoResult` is the navigation at line 683; `initialCount` the count at
line 689; `reload`/`recount` the refresh branch (lines 693-697), consulted
only when the first count is below 5; `page1`/`page2` the per-page
extraction environments; `navResult` the boolean returned by
`navigate_to_next_page` (whose own internal failures are all caught, so it
returns rather than raises).  Plain `wait_for_timeout` pauses are not
modelled. -/
structure CategoryEnv where
  gotoResult : Except Str Unit
  initialCount : Except Str Nat
  reload : Except Str Unit
  recount : Except Str Nat
  page1 : ExtractEnv
  navResult : Bool
  page2 : ExtractEnv

/-- Lines 693-698: if fewer than 5 containers, reload once and remeasure;
otherwise keep the first measurement. -/
def resolveInitialCount (env : CategoryEnv) (c0 : Nat) : Except Str Nat :=
  if c0 < 5 then
    match env.reload with
    | .error e => .error e
    | .ok _ => env.recount
  else .ok c0

/-- The success-path result (lines 730-755): merge the two batches,
deduplicate, cap at 100, and record the statistics. -/
def mkCategoryResult (cat : Category) (first_batch second_batch : List Item)
    (initial_asin_count : Nat) : CategoryResult :=
  let all_items := first_batch ++ second_batch
  let unique_items := deduplicate_products all_items
  let final_items := unique_items.take 100
  { category_link := cat.url
    category_items := final_items
    extraction_stats :=
      { page1_items := first_batch.length
        page2_items := second_batch.length
        total_before_dedup := all_items.length
        final_unique_items := final_items.length
        initial_asin_count := some initial_asin_count
        error := none } }

/-- The caught-error result (lines 757-771). -/
def errorResult (cat : Category) (e : Str) : CategoryResult :=
  { category_link := cat.url
    category_items := []
    extraction_stats :=
      { page1_items := 0
        page2_items := 0
        total_before_dedup := 0
        final_unique_items := 0
        initial_asin_count := none
        error := some e } }

/-- Instrumented outcome of the `try` body of `scrape_category`:
the body's value or first exception, whether `navigate_to_next_page` was
invoked (line 714), and the merged `all_items` list handed to
`deduplicate_products` (line 731; empty when the run never reaches the
merge). -/
structure ScrapeTrace where
  result : Except Str CategoryResult
  navAttempted : Bool
  allItems : List Item

/-- The `try` body of `scrape_category` (lines 681-755), instrumented:
navigate, measure (with one reload when below 5), extract page 1, attempt
page 2 only when page 1 yielded at least 15 items and navigation
succeeded, then merge, deduplicate, and cap.  The first exception aborts
the body. -/
def scrape_category_run (env : CategoryEnv) (cat : Category) : ScrapeTrace :=
  match env.gotoResult with
  | .error e => ⟨.error e, false, []⟩
  | .ok _ =>
    match env.initialCount with
    | .error e => ⟨.error e, false, []⟩
    | .ok c0 =>
      match resolveInitialCount env c0 with
      | .error e => ⟨.error e, false, []⟩
      | .ok initial_asin_count =>
        match extract_products_on_page env.page1 with
        | .error e => ⟨.error e, false, []⟩
        | .ok first_batch =>
          if 15 ≤ first_batch.length then
            match (if env.navResult then extract_products_on_page env.page2
                   else .ok []) with
            | .error e => ⟨.error e, true, []⟩
            | .ok second_batch =>
              ⟨.ok (mkCategoryResult cat first_batch second_batch
                      initial_asin_count),
               true, first_batch ++ second_batch⟩
          else
            ⟨.ok (mkCategoryResult cat first_batch [] initial_asin_count),
             false, first_batch ++ []⟩

/-- Embeds `scrape_category` (lines 671-771): the body's value, with any
exception converted into the minimal error result. -/
def scrape_category (env : CategoryEnv) (cat : Category) : CategoryResult :=
  match (scrape_category_run env cat).result with
  | .ok r => r
  | .error e => errorResult cat e

/-- A raw candidate that passes validation: 12-character name, link with
the `/dp/` marker. -/
def exRaw : Item := [("name", List.replicate 12 'a'), ("link", ['/', 'd', 'p', '/'])]

/-- A 102-character string whose cleaned form gets truncated right after a
word boundary. -/
def exLong : Str := List.replicate 99 'a' ++ ' ' :: ['b', 'b']

/-- A candidate carrying a stable identifier and a link. -/
def exDupItem : Item := [("asin", ['A']), ("link", ['L'])]

/-- A page whose container count never grows: waits succeed, every
measurement is 0. -/
def stallScrollEnv : ScrollEnv := ⟨.ok (), fun _ => 0, 0⟩

/-- A page whose DOM-ready fallback wait raises. -/
def failScrollEnv : ScrollEnv := ⟨.error ['t'], fun _ => 0, 0⟩

/-- A page that reports 25 containers at every measurement. -/
def plateauScrollEnv : ScrollEnv := ⟨.ok (), fun _ => 25, 25⟩

/-- A page where every extraction path yields nothing. -/
def emptyExtractEnv : ExtractEnv := ⟨stallScrollEnv, .ok 0, .ok [], .ok []⟩

/-- Scenario D of the spec: the container method yields 8 records, the
fallback yields 20. -/
def fallbackExtractEnv : ExtractEnv :=
  ⟨stallScrollEnv, .ok 10, .ok (List.replicate 8 ([] : Item)),
   .ok (List.replicate 20 ([] : Item))⟩

/-- A page where only the fallback finds the one valid candidate. -/
def oneItemExtractEnv : ExtractEnv := ⟨stallScrollEnv, .ok 0, .ok [], .ok [exRaw]⟩

/-- A concrete category input. -/
def exCat : Category := ⟨['c'], ['u']⟩

/-- A category run in which page 1 yields no items. -/
def emptyCategoryEnv : CategoryEnv :=
  ⟨.ok (), .ok 5, .ok (), .ok 0, emptyExtractEnv, false, emptyExtractEnv⟩

/-- A category run in which page 1 yields exactly one validated item. -/
def oneItemCategoryEnv : CategoryEnv :=
  ⟨.ok (), .ok 5, .ok (), .ok 0, oneItemExtractEnv, false, oneItemExtractEnv⟩

theorem pySplit_nil : pySplit [] = [] := rfl

theorem pySplit_singleton (c : Char) :
    pySplit [c] = if isPySpace c then [] else [[c]] := rfl

theorem pySplit_cons_cons (c d : Char) (ds : List Char) :
    pySplit (c :: d :: ds) =
      if isPySpace c then pySplit (d :: ds)
      else if isPySpace d then [c] :: pySplit (d :: ds)
      else (c :: (pySplit (d :: ds)).headI) :: (pySplit (d :: ds)).tail := rfl

theorem pySplit_cons_ne_nil (d : Char) (ds : List Char)
    (hd : isPySpace d = false) : pySplit (d :: ds) ≠ [] := by
  cases ds with
  | nil => simp [pySplit_singleton, hd]
  | cons e es => cases he : isPySpace e <;> simp [pySplit_cons_cons, hd, he]

theorem pySplit_good : ∀ l : List Char, ∀ t ∈ pySplit l,
    t ≠ [] ∧ ∀ c ∈ t, isPySpace c = false := by
  intro l
  induction l with
  | nil => simp [pySplit_nil]
  | cons c cs ih =>
    intro t ht
    cases cs with
    | nil =>
      cases hc : isPySpace c with
      | true => simp [pySplit_singleton, hc] at ht
      | false =>
        simp [pySplit_singleton, hc] at ht
        subst ht
        refine ⟨by simp, ?_⟩
        intro x hx
        simp at hx
        subst hx
        exact hc
    | cons d ds =>
      cases hc : isPySpace c with
      | true =>
        simp only [pySplit_cons_cons, hc, if_true] at ht
        exact ih t ht
      | false =>
        cases hd : isPySpace d with
        | true =>
          simp [pySplit_cons_cons, hc, hd] at ht
          rcases ht with rfl | ht
          · refine ⟨by simp, ?_⟩
            intro x hx
            simp at hx
            subst hx
            exact hc
          · exact ih t ht
        | false =>
          obtain ⟨t0, R0, hR⟩ : ∃ t0 R0, pySplit (d :: ds) = t0 :: R0 := by
            cases hP : pySplit (d :: ds) with
            | nil => exact absurd hP (pySplit_cons_ne_nil d ds hd)
            | cons a b => exact ⟨a, b, rfl⟩
          simp [pySplit_cons_cons, hc, hd, hR] at ht
          have h0 := ih t0 (by rw [hR]; exact List.mem_cons_self _ _)
          rcases ht with rfl | ht
          · refine ⟨by simp, ?_⟩
            intro x hx
            rcases List.mem_cons.mp hx with rfl | hx
            · exact hc
            · exact h0.2 x hx
          · exact ih t (by rw [hR]; exact List.mem_cons_of_mem _ ht)

theorem pySplit_token : ∀ t : List Char, t ≠ [] →
    (∀ c ∈ t, isPySpace c = false) → pySplit t = [t] := by
  intro t
  induction t with
  | nil => intro h; exact absurd rfl h
  | cons c t' ih =>
    intro _ hs
    have hc : isPySpace c = false := hs c (List.mem_cons_self c t')
    cases t' with
    | nil => simp [pySplit_singleton, hc]
    | cons d ds =>
      have hd : isPySpace d = false := hs d (by simp)
      have ht' := ih (by simp) (fun x hx => hs x (List.mem_cons_of_mem c hx))
      simp [pySplit_cons_cons, hc, hd, ht']

theorem pySplit_token_append : ∀ t r : List Char, t ≠ [] →
    (∀ c ∈ t, isPySpace c = false) →
    pySplit (t ++ ' ' :: r) = t :: pySplit r := by
  intro t
  induction t with
  | nil => intro r h; exact absurd rfl h
  | cons c t' ih =>
    intro r _ hs
    have hc : isPySpace c = false := hs c (List.mem_cons_self c t')
    cases t' with
    | nil =>
      have hsp : isPySpace ' ' = true := by decide
      have key : pySplit (' ' :: r) = pySplit r := by
        cases r with
        | nil => simp [pySplit_singleton, pySplit_nil, hsp]
        | cons e es => simp [pySplit_cons_cons, hsp]
      simp [pySplit_cons_cons, hc, hsp, key]
    | cons d ds =>
      have hd : isPySpace d = false := hs d (by simp)
      have ih' := ih r (by simp) (fun x hx => hs x (List.mem_cons_of_mem c hx))
      simp only [List.cons_append] at ih' ⊢
      simp [pySplit_cons_cons, hc, hd, ih']

theorem pySplit_joinSpace : ∀ toks : List (List Char),
    (∀ t ∈ toks, t ≠ [] ∧ ∀ c ∈ t, isPySpace c = false) →
    pySplit (joinSpace toks) = toks := by
  intro toks
  induction toks with
  | nil => intro _; rfl
  | cons t ts ih =>
    intro h
    have ht := h t (List.mem_cons_self t ts)
    cases ts with
    | nil => simpa [joinSpace] using pySplit_token t ht.1 ht.2
    | cons u ts' =>
      have hrest := ih (fun x hx => h x (List.mem_cons_of_mem t hx))
      calc pySplit (joinSpace (t :: u :: ts'))
          = pySplit (t ++ ' ' :: joinSpace (u :: ts')) := rfl
        _ = t :: pySplit (joinSpace (u :: ts')) :=
            pySplit_token_append t _ ht.1 ht.2
        _ = t :: u :: ts' := by rw [hrest]

theorem joinSpace_reverse_head : ∀ toks : List (List Char), toks ≠ [] →
    (∀ t ∈ toks, t ≠ [] ∧ ∀ c ∈ t, isPySpace c = false) →
    ∃ x xs, (joinSpace toks).reverse = x :: xs ∧ isPySpace x = false := by
  intro toks
  induction toks with
  | nil => intro h; exact absurd rfl h
  | cons t ts ih =>
    intro _ h
    have ht := h t (List.mem_cons_self t ts)
    cases ts with
    | nil =>
      cases hrev : t.reverse with
      | nil => exact absurd (by simpa using hrev) ht.1
      | cons x xs =>
        refine ⟨x, xs, by simpa [joinSpace] using hrev, ?_⟩
        have hx : x ∈ t := by
          have hmem : x ∈ t.reverse := by
            rw [hrev]; exact List.mem_cons_self x xs
          simpa using hmem
        exact ht.2 x hx
    | cons u ts' =>
      obtain ⟨x, xs, hxs, hx⟩ :=
        ih (by simp) (fun a ha => h a (List.mem_cons_of_mem t ha))
      refine ⟨x, xs ++ ' ' :: t.reverse, ?_, hx⟩
      have hj : joinSpace (t :: u :: ts') = t ++ ' ' :: joinSpace (u :: ts') := rfl
      rw [hj, List.reverse_append, List.reverse_cons, hxs]
      simp

theorem pyStrip_joinSpace : ∀ toks : List (List Char),
    (∀ t ∈ toks, t ≠ [] ∧ ∀ c ∈ t, isPySpace c = false) →
    pyStrip (joinSpace toks) = joinSpace toks := by
  intro toks h
  cases toks with
  | nil => rfl
  | cons t ts =>
    have ht := h t (List.mem_cons_self t ts)
    obtain ⟨c, t', rfl⟩ : ∃ c t', t = c :: t' := by
      cases t with
      | nil => exact absurd rfl ht.1
      | cons a b => exact ⟨a, b, rfl⟩
    have hc : isPySpace c = false := ht.2 c (List.mem_cons_self _ _)
    have hfront : (joinSpace ((c :: t') :: ts)).dropWhile isPySpace
        = joinSpace ((c :: t') :: ts) := by
      obtain ⟨rest, hr⟩ : ∃ rest, joinSpace ((c :: t') :: ts) = c :: rest := by
        cases ts with
        | nil => exact ⟨t', rfl⟩
        | cons u ts' => exact ⟨t' ++ ' ' :: joinSpace (u :: ts'), rfl⟩
      rw [hr]
      simp [List.dropWhile_cons, hc]
    have hback : (joinSpace ((c :: t') :: ts)).reverse.dropWhile isPySpace
        = (joinSpace ((c :: t') :: ts)).reverse := by
      obtain ⟨x, xs, hxs, hx⟩ := joinSpace_reverse_head ((c :: t') :: ts) (by simp) h
      rw [hxs]
      simp [List.dropWhile_cons, hx]
    unfold pyStrip
    rw [hfront, hback, List.reverse_reverse]

theorem clean_text_eq_join (s : Str) : clean_text s = joinSpace (pySplit s) := by
  by_cases hs : s = []
  · subst hs; rfl
  · unfold clean_text
    rw [if_neg hs]
    exact pyStrip_joinSpace (pySplit s) (pySplit_good s)

theorem clean_text_idem (s : Str) : clean_text (clean_text s) = clean_text s := by
  rw [clean_text_eq_join (clean_text s), clean_text_eq_join s,
    pySplit_joinSpace (pySplit s) (pySplit_good s)]

/-- C7 (amended): `clean_text` is idempotent, and `clean_product_name` /
`clean_rating` are idempotent on every input whose cleaned text fits the
truncation cap (500 resp. 100 characters).  Unrestricted idempotence fails
for the truncating cleaners: truncation can cut directly after a word,
leaving a trailing space that a second application strips. -/
theorem normalizer_idempotence_amended :
    (∀ s : Str, clean_text (clean_text s) = clean_text s) ∧
    (∀ s : Str, (clean_text s).length ≤ 500 →
      clean_product_name (clean_product_name s) = clean_product_name s) ∧
    (∀ s : Str, (clean_text s).length ≤ 100 →
      clean_rating (clean_rating s) = clean_rating s) := by
  refine ⟨clean_text_idem, ?_, ?_⟩
  · intro s hlen
    by_cases hs : s = []
    · subst hs; rfl
    · have h1 : clean_product_name s = clean_text s := by
        unfold clean_product_name
        rw [if_neg hs, if_neg (by omega)]
      rw [h1]
      by_cases hcs : clean_text s = []
      · rw [hcs]; rfl
      · unfold clean_product_name
        rw [if_neg hcs, clean_text_idem s, if_neg (by omega)]
  · intro s hlen
    by_cases hs : s = []
    · subst hs; rfl
    · have h1 : clean_rating s = clean_text s := by
        unfold clean_rating
        rw [if_neg hs, List.take_of_length_le hlen]
      rw [h1]
      by_cases hcs : clean_text s = []
      · rw [hcs]; rfl
      · unfold clean_rating
        rw [if_neg hcs, clean_text_idem s, List.take_of_length_le hlen]

/-- C7 witness: the restricted idempotence instances at concrete inputs
within the caps. -/
theorem normalizer_idempotence_amended_witness :
    clean_product_name (clean_product_name ['a', 'b']) = clean_product_name ['a', 'b'] ∧
    clean_rating (clean_rating ['a', 'b']) = clean_rating ['a', 'b'] :=
  ⟨normalizer_idempotence_amended.2.1 ['a', 'b'] (by decide),
   normalizer_idempotence_amended.2.2 ['a', 'b'] (by decide)⟩

/-- C7 counterexample: `clean_rating` is not idempotent.  On a 102-character
string whose 100th character is a space (99 `a`s, a space, then `bb`),
the first application truncates to a string ending in a space and the
second strips that space. -/
theorem clean_rating_not_idempotent :
    clean_rating (clean_rating exLong) ≠ clean_rating exLong := by decide

theorem rankSearch_nil : rankSearch [] = none := rfl

theorem rankSearch_digit (c : Char) (cs : List Char) (h : c.isDigit = true) :
    rankSearch (c :: cs) = some (c :: cs.takeWhile Char.isDigit) := by
  rw [rankSearch.eq_def]
  simp [h]

theorem rankSearch_other_nil (c : Char) (h : c.isDigit = false)
    (h2 : c ≠ '#') : rankSearch [c] = none := by
  rw [rankSearch.eq_def]
  simp [h, h2, rankSearch_nil]

theorem rankSearch_other_cons (c d : Char) (ds : List Char)
    (h : c.isDigit = false) (h2 : c ≠ '#') :
    rankSearch (c :: d :: ds) = rankSearch (d :: ds) := by
  rw [rankSearch.eq_def]
  simp [h, h2]

theorem rankSearch_hash_nil : rankSearch ['#'] = none := by decide

theorem rankSearch_hash_digit (d : Char) (ds : List Char)
    (h : d.isDigit = true) :
    rankSearch ('#' :: d :: ds) = some (d :: ds.takeWhile Char.isDigit) := by
  rw [rankSearch.eq_def]
  simp [h]

theorem rankSearch_hash_other (d : Char) (ds : List Char)
    (h : d.isDigit = false) :
    rankSearch ('#' :: d :: ds) = rankSearch (d :: ds) := by
  rw [rankSearch.eq_def]
  simp [h]

theorem rankSearch_shape : ∀ l ds : List Char, rankSearch l = some ds →
    ds ≠ [] ∧ ∀ c ∈ ds, c.isDigit = true := by
  intro l
  induction l with
  | nil => intro ds h; simp [rankSearch_nil] at h
  | cons c cs ih =>
    intro ds h
    cases hc : c.isDigit with
    | true =>
      rw [rankSearch_digit c cs hc] at h
      obtain rfl : c :: cs.takeWhile Char.isDigit = ds := by
        simpa using h
      refine ⟨by simp, ?_⟩
      intro x hx
      rcases List.mem_cons.mp hx with rfl | hx
      · exact hc
      · exact List.mem_takeWhile_imp hx
    | false =>
      by_cases hch : c = '#'
      · subst hch
        cases cs with
        | nil => rw [rankSearch_hash_nil] at h; cases h
        | cons d ds' =>
          cases hd : d.isDigit with
          | true =>
            rw [rankSearch_hash_digit d ds' hd] at h
            obtain rfl : d :: ds'.takeWhile Char.isDigit = ds := by
              simpa using h
            refine ⟨by simp, ?_⟩
            intro x hx
            rcases List.mem_cons.mp hx with rfl | hx
            · exact hd
            · exact List.mem_takeWhile_imp hx
          | false =>
            rw [rankSearch_hash_other d ds' hd] at h
            exact ih ds h
      · cases cs with
        | nil => rw [rankSearch_other_nil c hc hch] at h; cases h
        | cons d ds' =>
          rw [rankSearch_other_cons c d ds' hc hch] at h
          exact ih ds h

theorem rankSearch_no_digits : ∀ l : List Char,
    (∀ c ∈ l, c.isDigit = false) → rankSearch l = none := by
  intro l
  induction l with
  | nil => intro _; rfl
  | cons c cs ih =>
    intro h
    have hc : c.isDigit = false := h c (List.mem_cons_self c cs)
    have hrest : ∀ x ∈ cs, x.isDigit = false :=
      fun x hx => h x (List.mem_cons_of_mem c hx)
    by_cases hch : c = '#'
    · subst hch
      cases cs with
      | nil => exact rankSearch_hash_nil
      | cons d ds' =>
        rw [rankSearch_hash_other d ds' (hrest d (List.mem_cons_self d ds'))]
        exact ih hrest
    · cases cs with
      | nil => exact rankSearch_other_nil c hc hch
      | cons d ds' =>
        rw [rankSearch_other_cons c d ds' hc hch]
        exact ih hrest

theorem takeWhile_digits_append : ∀ a b : List Char,
    (∀ c ∈ a, c.isDigit = true) → (∀ c ∈ b.take 1, c.isDigit = false) →
    (a ++ b).takeWhile Char.isDigit = a := by
  intro a
  induction a with
  | nil =>
    intro b _ hb
    cases b with
    | nil => rfl
    | cons x xs =>
      have hx : x.isDigit = false := hb x (by simp)
      simp [List.takeWhile_cons, hx]
  | cons y ys ih =>
    intro b ha hb
    have hy : y.isDigit = true := ha y (List.mem_cons_self y ys)
    have hrest := ih b (fun c hc => ha c (List.mem_cons_of_mem y hc)) hb
    simp [List.takeWhile_cons, hy, hrest]

theorem rankSearch_first_run : ∀ pre run post : List Char,
    (∀ c ∈ pre, c.isDigit = false) → run ≠ [] →
    (∀ c ∈ run, c.isDigit = true) → (∀ c ∈ post.take 1, c.isDigit = false) →
    rankSearch (pre ++ run ++ post) = some run := by
  intro pre
  induction pre with
  | nil =>
    intro run post _ hne hrun hpost
    cases run with
    | nil => exact absurd rfl hne
    | cons d run' =>
      have hd : d.isDigit = true := hrun d (List.mem_cons_self d run')
      have htw := takeWhile_digits_append run' post
        (fun c hc => hrun c (List.mem_cons_of_mem d hc)) hpost
      simp only [List.nil_append, List.cons_append]
      rw [rankSearch_digit d (run' ++ post) hd, htw]
  | cons c pre' ih =>
    intro run post hpre hne hrun hpost
    have hc : c.isDigit = false := hpre c (List.mem_cons_self c pre')
    have hpre' : ∀ x ∈ pre', x.isDigit = false :=
      fun x hx => hpre x (List.mem_cons_of_mem c hx)
    by_cases hch : c = '#'
    · subst hch
      cases pre' with
      | nil =>
        cases run with
        | nil => exact absurd rfl hne
        | cons d run' =>
          have hd : d.isDigit = true := hrun d (List.mem_cons_self d run')
          have htw := takeWhile_digits_append run' post
            (fun x hx => hrun x (List.mem_cons_of_mem d hx)) hpost
          simp only [List.nil_append, List.cons_append]
          rw [rankSearch_hash_digit d (run' ++ post) hd, htw]
      | cons e pre'' =>
        have he : e.isDigit = false := hpre' e (List.mem_cons_self e pre'')
        have hrec := ih run post hpre' hne hrun hpost
        simp only [List.cons_append] at hrec ⊢
        rw [rankSearch_hash_other e _ he]
        exact hrec
    · cases pre' with
      | nil =>
        have hrec := ih run post (by simp) hne hrun hpost
        cases run with
        | nil => exact absurd rfl hne
        | cons d run' =>
          simp only [List.nil_append, List.cons_append] at hrec ⊢
          rw [rankSearch_other_cons c d (run' ++ post) hc hch]
          exact hrec
      | cons e pre'' =>
        have hrec := ih run post hpre' hne hrun hpost
        simp only [List.cons_append] at hrec ⊢
        rw [rankSearch_other_cons c e _ hc hch]
        exact hrec

/-- C8: `clean_rank` returns either `""` or `"#"` followed by a non-empty
digit run; it returns `""` whenever the input holds no digit; on any input
that decomposes into digit-free text, a digit run, and a remainder not
starting with a digit, it returns `"#"` followed by that first digit run;
and the three examples from the spec hold. -/
theorem clean_rank_spec :
    (∀ s : Str, clean_rank s = [] ∨
      ∃ ds, clean_rank s = '#' :: ds ∧ ds ≠ [] ∧ ∀ c ∈ ds, c.isDigit = true) ∧
    (∀ s : Str, (∀ c ∈ s, c.isDigit = false) → clean_rank s = []) ∧
    (∀ pre run post : Str, (∀ c ∈ pre, c.isDigit = false) → run ≠ [] →
      (∀ c ∈ run, c.isDigit = true) → (∀ c ∈ post.take 1, c.isDigit = false) →
      clean_rank (pre ++ run ++ post) = '#' :: run) ∧
    clean_rank ['#', '1'] = ['#', '1'] ∧
    clean_rank ("Best Sellers Rank #42".data) = "#42".data ∧
    clean_rank ("no digits".data) = [] := by
  refine ⟨?_, ?_, ?_, by decide, by decide, by decide⟩
  · intro s
    by_cases hs : s = []
    · subst hs; exact Or.inl rfl
    · cases hr : rankSearch s with
      | none => exact Or.inl (by simp [clean_rank, hs, hr])
      | some ds =>
        obtain ⟨hd1, hd2⟩ := rankSearch_shape s ds hr
        exact Or.inr ⟨ds, by simp [clean_rank, hs, hr], hd1, hd2⟩
  · intro s h
    by_cases hs : s = []
    · subst hs; rfl
    · simp [clean_rank, hs, rankSearch_no_digits s h]
  · intro pre run post h1 h2 h3 h4
    have hne : pre ++ run ++ post ≠ [] := by
      intro hcontra
      rcases List.append_eq_nil.mp hcontra with ⟨ha, _⟩
      exact h2 (List.append_eq_nil.mp ha).2
    unfold clean_rank
    rw [if_neg hne, rankSearch_first_run pre run post h1 h2 h3 h4]

/-- C8 witness: the hypothesized conjuncts of `clean_rank_spec` at
concrete inputs. -/
theorem clean_rank_spec_witness :
    clean_rank ("xy".data) = [] ∧
    clean_rank (['R', 'k', ' '] ++ ['4', '2'] ++ ['n', 'd']) = ['#', '4', '2'] :=
  ⟨clean_rank_spec.2.1 _ (by decide),
   clean_rank_spec.2.2.1 _ _ _ (by decide) (by decide) (by decide) (by decide)⟩

theorem mem_dedupLinks : ∀ (l : List Item) (seen : List Str) (it : Item),
    it ∈ dedupLinks l seen → it ∈ l := by
  intro l
  induction l with
  | nil => intro seen it h; simp [dedupLinks] at h
  | cons x rest ih =>
    intro seen it h
    by_cases hx : getField x "link" ∈ seen
    · simp only [dedupLinks, if_pos hx] at h
      exact List.mem_cons_of_mem x (ih seen it h)
    · simp only [dedupLinks, if_neg hx] at h
      rcases List.mem_cons.mp h with rfl | h
      · exact List.mem_cons_self _ _
      · exact List.mem_cons_of_mem x (ih _ it h)

theorem mem_validatePass : ∀ (items : List Item) (it : Item),
    it ∈ validatePass items →
    (∃ raw, it = cleanItem raw) ∧
    getField it "name" ≠ [] ∧ getField it "link" ≠ [] ∧
    10 < (getField it "name").length := by
  intro items
  induction items with
  | nil => intro it h; simp [validatePass] at h
  | cons x rest ih =>
    intro it h
    by_cases h1 : getField x "name" = [] ∨ getField x "link" = []
    · simp only [validatePass, if_pos h1] at h
      exact ih it h
    · by_cases h2 : getField (cleanItem x) "name" ≠ [] ∧
          getField (cleanItem x) "link" ≠ [] ∧
          10 < (getField (cleanItem x) "name").length
      · simp only [validatePass, if_neg h1, if_pos h2] at h
        rcases List.mem_cons.mp h with rfl | h
        · exact ⟨⟨x, rfl⟩, h2.1, h2.2.1, h2.2.2⟩
        · exact ih it h
      · simp only [validatePass, if_neg h1, if_neg h2] at h
        exact ih it h

/-- C2: every record emitted by `validate_and_clean_items` has a non-empty
name, a non-empty link, and a cleaned name longer than 10 characters;
offending records never appear in the output. -/
theorem validate_and_clean_items_invariant :
    ∀ (items : List Item) (it : Item), it ∈ validate_and_clean_items items →
    getField it "name" ≠ [] ∧ getField it "link" ≠ [] ∧
    10 < (getField it "name").length := by
  intro items it h
  have h2 := mem_validatePass items it (mem_dedupLinks _ _ _ h)
  exact ⟨h2.2.1, h2.2.2.1, h2.2.2.2⟩

/-- C2 witness: the invariant at the one record the validator emits on a
concrete input list. -/
theorem validate_and_clean_items_invariant_witness :
    getField (cleanItem exRaw) "name" ≠ [] ∧
    getField (cleanItem exRaw) "link" ≠ [] ∧
    10 < (getField (cleanItem exRaw) "name").length :=
  validate_and_clean_items_invariant [exRaw] (cleanItem exRaw) (by decide)

theorem cleanItem_keys (raw : Item) :
    (cleanItem raw).map Prod.fst = ["rank", "name", "link", "rating", "price"] := rfl

theorem cleanItem_no_asin (raw : Item) :
    getField (cleanItem raw) "asin" = [] := rfl

theorem validated_no_asin : ∀ (items : List Item) (it : Item),
    it ∈ validate_and_clean_items items → getField it "asin" = [] := by
  intro items it h
  obtain ⟨⟨raw, rfl⟩, -, -, -⟩ := mem_validatePass items it (mem_dedupLinks _ _ _ h)
  exact cleanItem_no_asin raw

theorem validated_keys : ∀ (items : List Item) (it : Item),
    it ∈ validate_and_clean_items items →
    it.map Prod.fst = ["rank", "name", "link", "rating", "price"] := by
  intro items it h
  obtain ⟨⟨raw, rfl⟩, -, -, -⟩ := mem_validatePass items it (mem_dedupLinks _ _ _ h)
  exact cleanItem_keys raw

theorem extract_result_shape (env : ExtractEnv) :
    (∃ e, (extract_products_on_pageT env).result = .error e) ∨
    (extract_products_on_pageT env).result =
      .ok (validate_and_clean_items (extract_products_on_pageT env).chosenItems) := by
  unfold extract_products_on_pageT
  split
  · exact Or.inl ⟨_, rfl⟩
  · split
    · exact Or.inl ⟨_, rfl⟩
    · split
      · exact Or.inl ⟨_, rfl⟩
      · split
        · split
          · exact Or.inl ⟨_, rfl⟩
          · exact Or.inr rfl
        · exact Or.inr rfl

theorem extract_ok_validated (env : ExtractEnv) (v : List Item)
    (h : extract_products_on_page env = .ok v) :
    ∃ raw, v = validate_and_clean_items raw := by
  unfold extract_products_on_page at h
  rcases extract_result_shape env with ⟨e, he⟩ | hok
  · rw [he] at h; cases h
  · rw [hok] at h
    injection h with h2
    exact ⟨_, h2.symm⟩

theorem scrape_run_shape (env : CategoryEnv) (cat : Category) :
    (∃ e, (scrape_category_run env cat).result = .error e ∧
      (scrape_category_run env cat).allItems = []) ∨
    (∃ fb sb ic,
      (scrape_category_run env cat).result = .ok (mkCategoryResult cat fb sb ic) ∧
      (scrape_category_run env cat).allItems = fb ++ sb ∧
      extract_products_on_page env.page1 = .ok fb ∧
      (sb = [] ∨ extract_products_on_page env.page2 = .ok sb)) := by
  unfold scrape_category_run
  split
  · exact Or.inl ⟨_, rfl, rfl⟩
  · split
    · exact Or.inl ⟨_, rfl, rfl⟩
    · split
      · exact Or.inl ⟨_, rfl, rfl⟩
      · split
        · exact Or.inl ⟨_, rfl, rfl⟩
        · split
          · split
            · exact Or.inl ⟨_, rfl, rfl⟩
            · rename_i x sb hnav
              refine Or.inr ⟨_, _, _, rfl, rfl, by assumption, ?_⟩
              by_cases hb : env.navResult = true
              · rw [if_pos hb] at hnav
                exact Or.inr hnav
              · rw [if_neg hb] at hnav
                injection hnav with hnav
                exact Or.inl hnav.symm
          · exact Or.inr ⟨_, _, _, rfl, rfl, by assumption, Or.inl rfl⟩

theorem mkCategoryResult_items_le (cat : Category) (fb sb : List Item)
    (ic : Nat) : (mkCategoryResult cat fb sb ic).category_items.length ≤ 100 := by
  simp only [mkCategoryResult, List.length_take]
  omega

theorem mkCategoryResult_final_eq (cat : Category) (fb sb : List Item)
    (ic : Nat) :
    (mkCategoryResult cat fb sb ic).extraction_stats.final_unique_items =
      (mkCategoryResult cat fb sb ic).category_items.length := rfl

/-- C3: every result of `scrape_category`, on the success path and on the
caught-error path alike, carries at most 100 items and a
`final_unique_items` statistic equal to the item-list length. -/
theorem scrape_category_stats_invariant (env : CategoryEnv) (cat : Category) :
    (scrape_category env cat).category_items.length ≤ 100 ∧
    (scrape_category env cat).extraction_stats.final_unique_items =
      (scrape_category env cat).category_items.length := by
  unfold scrape_category
  rcases scrape_run_shape env cat with ⟨e, he, -⟩ | ⟨fb, sb, ic, hok, -, -, -⟩
  · rw [he]
    exact ⟨by simp [errorResult], rfl⟩
  · rw [hok]
    exact ⟨mkCategoryResult_items_le cat fb sb ic,
      mkCategoryResult_final_eq cat fb sb ic⟩

/-- C6: `scrape_category` always returns a `CategoryResult`: when its body
runs to completion the value is passed through (with no `error` entry in
the statistics), and when the body raises, the exception is converted to
the minimal result with empty items and the message in
`extraction_stats.error` — it never propagates. -/
theorem scrape_category_always_returns (env : CategoryEnv) (cat : Category) :
    ((scrape_category_run env cat).result = .ok (scrape_category env cat) ∧
      (scrape_category env cat).extraction_stats.error = none) ∨
    (∃ e, (scrape_category_run env cat).result = .error e ∧
      scrape_category env cat = errorResult cat e ∧
      (scrape_category env cat).category_items = [] ∧
      (scrape_category env cat).extraction_stats.error = some e) := by
  rcases scrape_run_shape env cat with ⟨e, he, -⟩ | ⟨fb, sb, ic, hok, -, -, -⟩
  · refine Or.inr ⟨e, he, ?_, ?_, ?_⟩ <;> (unfold scrape_category; rw [he]) <;> rfl
  · refine Or.inl ⟨?_, ?_⟩
    · unfold scrape_category
      rw [hok]
    · unfold scrape_category
      rw [hok]
      rfl

/-- C10: a record emitted by the validator consists of exactly the five
fields `rank, name, link, rating, price` (in particular no `asin`), and
consequently every candidate in the merged page-1/page-2 list that
`scrape_category` hands to `deduplicate_products` carries no stable
identifier. -/
theorem validated_item_fields :
    (∀ (items : List Item) (it : Item), it ∈ validate_and_clean_items items →
      it.map Prod.fst = ["rank", "name", "link", "rating", "price"] ∧
      getField it "asin" = []) ∧
    (∀ (env : CategoryEnv) (cat : Category) (it : Item),
      it ∈ (scrape_category_run env cat).allItems → getField it "asin" = []) := by
  constructor
  · intro items it h
    exact ⟨validated_keys items it h, validated_no_asin items it h⟩
  · intro env cat it h
    rcases scrape_run_shape env cat with ⟨e, -, hall⟩ | ⟨fb, sb, ic, -, hall, hfb, hsb⟩
    · rw [hall] at h
      cases h
    · rw [hall] at h
      rcases List.mem_append.mp h with h | h
      · obtain ⟨raw, rfl⟩ := extract_ok_validated env.page1 fb hfb
        exact validated_no_asin raw it h
      · rcases hsb with rfl | hsb
        · cases h
        · obtain ⟨raw, rfl⟩ := extract_ok_validated env.page2 sb hsb
          exact validated_no_asin raw it h

/-- C10 witness: the field list of a concretely validated record, and the
asin-freeness of the one candidate a concrete category run passes to the
final dedup. -/
theorem validated_item_fields_witness :
    ((cleanItem exRaw).map Prod.fst = ["rank", "name", "link", "rating", "price"] ∧
      getField (cleanItem exRaw) "asin" = []) ∧
    getField (cleanItem exRaw) "asin" = [] :=
  ⟨validated_item_fields.1 [exRaw] (cleanItem exRaw) (by decide),
   validated_item_fields.2 oneItemCategoryEnv exCat (cleanItem exRaw) (by decide)⟩

theorem getField_removeKey : ∀ (item : Item) (k k' : String), k' ≠ k →
    getField (removeKey item k) k' = getField item k' := by
  intro item k k' hne
  induction item with
  | nil => rfl
  | cons kv rest ih =>
    obtain ⟨k0, v0⟩ := kv
    by_cases h0 : k0 = k
    · subst h0
      simp only [removeKey, getField, eq_self_iff_true, if_true]
      rw [ih, if_neg (fun hh => hne hh.symm)]
    · simp only [removeKey, if_neg h0, getField]
      by_cases h1 : k0 = k'
      · rw [if_pos h1, if_pos h1]
      · rw [if_neg h1, if_neg h1]
        exact ih

theorem linkCount_cons (l : Str) (x : Item) (xs : List Item) :
    linkCount l (x :: xs) =
      linkCount l xs + if getField x "link" = l then 1 else 0 := by
  simp [linkCount, List.countP_cons]

theorem dedupGo_seen_zero : ∀ (items : List Item) (seenL seenA : List Str)
    (l : Str), (∀ it ∈ items, getField it "asin" = []) → l ∈ seenL →
    linkCount l (dedupGo items seenL seenA) = 0 := by
  intro items
  induction items with
  | nil => intro seenL seenA l _ _; rfl
  | cons x rest ih =>
    intro seenL seenA l hasi hl
    have hx : getField x "asin" = [] := hasi x (List.mem_cons_self x rest)
    have hrest : ∀ it ∈ rest, getField it "asin" = [] :=
      fun it hi => hasi it (List.mem_cons_of_mem x hi)
    have hcond1 : ¬(getField x "asin" ≠ [] ∧ getField x "asin" ∉ seenA) := by
      rw [hx]; simp
    simp only [dedupGo, if_neg hcond1]
    by_cases hc2 : getField x "link" ≠ [] ∧ getField x "link" ∉ seenL
    · rw [if_pos hc2, linkCount_cons]
      have hlink_ne : ¬(getField (removeKey x "asin") "link" = l) := by
        rw [getField_removeKey x "asin" "link" (by decide)]
        intro hcontra
        exact hc2.2 (hcontra ▸ hl)
      rw [if_neg hlink_ne, ih _ _ l hrest (List.mem_cons_of_mem _ hl)]
    · rw [if_neg hc2]
      exact ih _ _ l hrest hl

theorem dedupGo_le_one : ∀ (items : List Item) (seenL seenA : List Str)
    (l : Str), (∀ it ∈ items, getField it "asin" = []) →
    linkCount l (dedupGo items seenL seenA) ≤ 1 := by
  intro items
  induction items with
  | nil => intro seenL seenA l _; simp [dedupGo, linkCount]
  | cons x rest ih =>
    intro seenL seenA l hasi
    have hx : getField x "asin" = [] := hasi x (List.mem_cons_self x rest)
    have hrest : ∀ it ∈ rest, getField it "asin" = [] :=
      fun it hi => hasi it (List.mem_cons_of_mem x hi)
    have hcond1 : ¬(getField x "asin" ≠ [] ∧ getField x "asin" ∉ seenA) := by
      rw [hx]; simp
    simp only [dedupGo, if_neg hcond1]
    by_cases hc2 : getField x "link" ≠ [] ∧ getField x "link" ∉ seenL
    · rw [if_pos hc2, linkCount_cons]
      by_cases hll : getField (removeKey x "asin") "link" = l
      · have hl : l ∈ getField x "link" :: seenL := by
          rw [getField_removeKey x "asin" "link" (by decide)] at hll
          rw [← hll]
          exact List.mem_cons_self _ _
        rw [dedupGo_seen_zero rest _ _ l hrest hl, if_pos hll]
      · rw [if_neg hll]
        simpa using ih _ _ l hrest
    · rw [if_neg hc2]
      exact ih _ _ l hrest

theorem deduplicate_products_link_unique (items : List Item)
    (h : ∀ it ∈ items, getField it "asin" = []) (l : Str) :
    linkCount l (deduplicate_products items) ≤ 1 :=
  dedupGo_le_one items [] [] l h

/-- C1 (amended): in the final `category_items` of any category run, at
most one record carries any given link — the candidates reach the
cross-page dedup with no stable identifier, so the dedup keys on the link
and drops every repeat. -/
theorem category_items_link_unique (env : CategoryEnv) (cat : Category)
    (l : Str) : linkCount l (scrape_category env cat).category_items ≤ 1 := by
  unfold scrape_category
  rcases scrape_run_shape env cat with ⟨e, he, -⟩ | ⟨fb, sb, ic, hok, -, hfb, hsb⟩
  · rw [he]
    simp [errorResult, linkCount]
  · rw [hok]
    have hno : ∀ it ∈ fb ++ sb, getField it "asin" = [] := by
      intro it hit
      rcases List.mem_append.mp hit with hit | hit
      · obtain ⟨raw, rfl⟩ := extract_ok_validated env.page1 fb hfb
        exact validated_no_asin raw it hit
      · rcases hsb with rfl | hsb
        · cases hit
        · obtain ⟨raw, rfl⟩ := extract_ok_validated env.page2 sb hsb
          exact validated_no_asin raw it hit
    calc linkCount l (mkCategoryResult cat fb sb ic).category_items
        ≤ linkCount l (deduplicate_products (fb ++ sb)) :=
          List.Subperm.countP_le _ ((List.take_sublist _ _).subperm)
      _ ≤ 1 := deduplicate_products_link_unique _ hno l

/-- C1 counterexample: two identical candidates sharing the same stable
identifier (and the same link) both survive `deduplicate_products`: the
first is admitted under the asin key, the second finds its asin already
seen but its link not yet used as a key and is admitted again. -/
theorem dedup_same_asin_counterexample :
    getField exDupItem "asin" = ['A'] ∧
    (deduplicate_products [exDupItem, exDupItem]).length = 2 := by decide

/-- C5: whenever the scroll and the container count succeed, the fallback
extractor runs exactly when the method-1 phase left fewer than 15 records;
when it runs, its output replaces the method-1 records exactly when it is
strictly longer (otherwise the method-1 records are kept), and the
surviving list is what gets validated; with 15 or more records the
fallback never runs. -/
theorem fallback_extractor_policy (env : ExtractEnv) (sr : ScrollResult)
    (cc : Nat) (items : List Item)
    (hs : scroll_to_bottom_enhanced env.scrollEnv 8 = .ok sr)
    (hc : env.containerCount = .ok cc)
    (hm : (if 10 ≤ cc then env.asinItems else .ok []) = .ok items) :
    ((extract_products_on_pageT env).fallbackRan = true ↔ items.length < 15) ∧
    (extract_products_on_pageT env).method1Items = items ∧
    (∀ fb, items.length < 15 → env.fallbackItems = .ok fb →
      (extract_products_on_pageT env).chosenItems =
        (if items.length < fb.length then fb else items) ∧
      (extract_products_on_pageT env).result =
        .ok (validate_and_clean_items
          (if items.length < fb.length then fb else items))) ∧
    (15 ≤ items.length →
      (extract_products_on_pageT env).chosenItems = items ∧
      (extract_products_on_pageT env).result =
        .ok (validate_and_clean_items items)) := by
  unfold extract_products_on_pageT
  split
  case h_1 e heq => rw [heq] at hs; cases hs
  case h_2 sr' heq =>
    split
    case h_1 e heq2 => rw [heq2] at hc; cases hc
    case h_2 cc' heq2 =>
      rw [heq2] at hc
      injection hc with hcc
      subst hcc
      split
      case h_1 e heq3 => rw [heq3] at hm; cases hm
      case h_2 items' heq3 =>
        rw [heq3] at hm
        injection hm with hmm
        subst hmm
        by_cases h15 : items'.length < 15
        · rw [if_pos h15]
          cases hf : env.fallbackItems with
          | error e =>
            refine ⟨by simp [h15], by simp, ?_, ?_⟩
            · intro fb _ hfb
              cases hfb
            · intro h15'
              omega
          | ok fb0 =>
            refine ⟨by simp [h15], by simp, ?_, ?_⟩
            · intro fb _ hfb
              injection hfb with hfb
              subst hfb
              exact ⟨by simp, by simp⟩
            · intro h15'
              omega
        · rw [if_neg h15]
          refine ⟨by simp [h15], by simp, ?_, ?_⟩
          · intro fb hlt _
            omega
          · intro _
            exact ⟨by simp, by simp⟩

/-- C5 witness (spec scenario D): the container method yields 8 records,
the fallback yields 20, so the fallback runs and its 20 records are the
ones kept. -/
theorem fallback_extractor_policy_witness :
    ((extract_products_on_pageT fallbackExtractEnv).fallbackRan = true ↔
      (List.replicate 8 ([] : Item)).length < 15) ∧
    (extract_products_on_pageT fallbackExtractEnv).chosenItems =
      (if (List.replicate 8 ([] : Item)).length <
          (List.replicate 20 ([] : Item)).length
       then List.replicate 20 ([] : Item) else List.replicate 8 ([] : Item)) := by
  have h := fallback_extractor_policy fallbackExtractEnv ⟨0, 8⟩ 10
    (List.replicate 8 ([] : Item)) rfl rfl rfl
  exact ⟨h.1, (h.2.2.1 (List.replicate 20 ([] : Item)) (by decide) rfl).1⟩

/-- C4: in every run that reaches page-1 extraction, page-2 navigation is
attempted if and only if page 1 yielded at least 15 validated items; when
it yielded fewer, no navigation is invoked, the run completes with an
empty second batch, and the reported `page2_items` statistic is 0. -/
theorem page2_navigation_policy (env : CategoryEnv) (cat : Category)
    (c0 ic : Nat) (fb : List Item)
    (h1 : env.gotoResult = .ok ())
    (h2 : env.initialCount = .ok c0)
    (h3 : resolveInitialCount env c0 = .ok ic)
    (h4 : extract_products_on_page env.page1 = .ok fb) :
    (((scrape_category_run env cat).navAttempted = true) ↔ 15 ≤ fb.length) ∧
    (fb.length < 15 →
      scrape_category env cat = mkCategoryResult cat fb [] ic ∧
      (scrape_category env cat).extraction_stats.page2_items = 0) := by
  unfold scrape_category scrape_category_run
  split
  case h_1 e heq => rw [heq] at h1; cases h1
  case h_2 u heq =>
    split
    case h_1 e heq2 => rw [heq2] at h2; cases h2
    case h_2 c0' heq2 =>
      rw [heq2] at h2
      injection h2 with h2x
      subst h2x
      split
      case h_1 e heq3 => rw [heq3] at h3; cases h3
      case h_2 ic' heq3 =>
        rw [heq3] at h3
        injection h3 with h3x
        subst h3x
        split
        case h_1 e heq4 => rw [heq4] at h4; cases h4
        case h_2 fb' heq4 =>
          rw [heq4] at h4
          injection h4 with h4x
          subst h4x
          by_cases h15 : 15 ≤ fb'.length
          · rw [if_pos h15]
            cases hnav : (if env.navResult = true
                then extract_products_on_page env.page2 else .ok []) with
            | error e =>
              refine ⟨by simp [h15], ?_⟩
              intro hlt
              omega
            | ok sb =>
              refine ⟨by simp [h15], ?_⟩
              intro hlt
              omega
          · rw [if_neg h15]
            refine ⟨by simp [h15], ?_⟩
            intro hlt
            exact ⟨rfl, rfl⟩

/-- C4 witness: a concrete run whose page 1 yields 0 items (< 15): the
navigation flag is down and `page2_items` is 0. -/
theorem page2_navigation_policy_witness :
    (((scrape_category_run emptyCategoryEnv exCat).navAttempted = true) ↔
      15 ≤ ([] : List Item).length) ∧
    (([] : List Item).length < 15 →
      scrape_category emptyCategoryEnv exCat = mkCategoryResult exCat [] [] 5 ∧
      (scrape_category emptyCategoryEnv exCat).extraction_stats.page2_items
        = 0) :=
  page2_navigation_policy emptyCategoryEnv exCat 5 5 [] rfl rfl rfl rfl


theorem scrollGo_le : ∀ (counts : Nat → Nat) (fuel i last stable : Nat),
    scrollGo counts fuel i last stable ≤ fuel := by
  intro counts fuel
  induction fuel with
  | zero => intro i last stable; simp [scrollGo]
  | succ n ih =>
    intro i last stable
    simp only [scrollGo]
    by_cases hc : 2 ≤ (scrollStep last stable (counts i)).2 ∧ 20 ≤ counts i
    · rw [if_pos hc]; omega
    · rw [if_neg hc]
      have := ih (i + 1) (scrollStep last stable (counts i)).1
        (scrollStep last stable (counts i)).2
      omega

theorem scrollGo_stop (counts : Nat → Nat) (fuel k : Nat)
    (h : stopCond counts k) :
    scrollGo counts (fuel + 1) k (scrollState counts k).1
      (scrollState counts k).2 = 1 := by
  have h' : 2 ≤ (scrollStep (scrollState counts k).1 (scrollState counts k).2
      (counts k)).2 ∧ 20 ≤ counts k := h
  simp only [scrollGo]
  rw [if_pos h']

theorem scrollGo_next (counts : Nat → Nat) (fuel k : Nat)
    (h : ¬ stopCond counts k) :
    scrollGo counts (fuel + 1) k (scrollState counts k).1
      (scrollState counts k).2 =
    1 + scrollGo counts fuel (k + 1) (scrollState counts (k + 1)).1
      (scrollState counts (k + 1)).2 := by
  have h' : ¬(2 ≤ (scrollStep (scrollState counts k).1 (scrollState counts k).2
      (counts k)).2 ∧ 20 ≤ counts k) := h
  simp only [scrollGo]
  rw [if_neg h']
  rfl

theorem scrollGo_stop_le : ∀ (counts : Nat → Nat) (fuel k j : Nat),
    stopCond counts (k + j) →
    scrollGo counts fuel k (scrollState counts k).1 (scrollState counts k).2
      ≤ j + 1 := by
  intro counts fuel
  induction fuel with
  | zero => intro k j _; simp [scrollGo]
  | succ n ih =>
    intro k j hstop
    by_cases hk : stopCond counts k
    · rw [scrollGo_stop counts n k hk]; omega
    · rw [scrollGo_next counts n k hk]
      cases j with
      | zero => exact absurd hstop hk
      | succ j' =>
        have hrec := ih (k + 1) j' (by
          have e : k + 1 + j' = k + (j' + 1) := by omega
          rw [e]
          exact hstop)
        omega

theorem scrollGo_no_stop : ∀ (counts : Nat → Nat) (fuel k j : Nat),
    j + 1 < scrollGo counts fuel k (scrollState counts k).1
      (scrollState counts k).2 →
    ¬ stopCond counts (k + j) := by
  intro counts fuel
  induction fuel with
  | zero => intro k j h; simp [scrollGo] at h
  | succ n ih =>
    intro k j h
    by_cases hk : stopCond counts k
    · rw [scrollGo_stop counts n k hk] at h; omega
    · rw [scrollGo_next counts n k hk] at h
      cases j with
      | zero => exact hk
      | succ j' =>
        have hrec := ih (k + 1) j' (by omega)
        have e : k + 1 + j' = k + (j' + 1) := by omega
        rw [e] at hrec
        exact hrec

/-- C9 (amended): the lazy-load convergence loop executes at most
`max_scrolls` scroll-pause-measure iterations; once the early-exit
condition (two consecutive measurements with no count increase and a count
of at least 20) holds after some iteration, no later iteration runs; no
iteration short of the last executed one satisfies the condition (the loop
stops exactly as soon as it fires); and whenever the initial wait block
returns, the function returns the final fresh container count.  The
original claim's "no failure mode" clause is dropped: when the
network-idle wait times out and the uncaught DOM-ready fallback wait
raises, the exception propagates. -/
theorem scroll_convergence_amended (env : ScrollEnv) (max_scrolls : Nat) :
    scrollIterations env.counts max_scrolls ≤ max_scrolls ∧
    (∀ j, stopCond env.counts j →
      scrollIterations env.counts max_scrolls ≤ j + 1) ∧
    (∀ j, j + 1 < scrollIterations env.counts max_scrolls →
      ¬ stopCond env.counts j) ∧
    (env.initWait = .ok () →
      scroll_to_bottom_enhanced env max_scrolls =
        .ok ⟨env.finalCount, scrollIterations env.counts max_scrolls⟩) := by
  refine ⟨scrollGo_le env.counts max_scrolls 0 0 0, ?_, ?_, ?_⟩
  · intro j h
    apply scrollGo_stop_le env.counts max_scrolls 0 j
    rw [Nat.zero_add]
    exact h
  · intro j h
    have := scrollGo_no_stop env.counts max_scrolls 0 j h
    rw [Nat.zero_add] at this
    exact this
  · intro h
    unfold scroll_to_bottom_enhanced
    rw [h]

/-- C9 witness: on a page reporting 25 containers at every measurement,
the early-exit condition holds after iteration 2 (counting from 0), so at
most 3 iterations run, and the successful initial wait yields the final
count. -/
theorem scroll_convergence_amended_witness :
    scrollIterations plateauScrollEnv.counts 8 ≤ 2 + 1 ∧
    scroll_to_bottom_enhanced plateauScrollEnv 8 =
      .ok ⟨plateauScrollEnv.finalCount,
           scrollIterations plateauScrollEnv.counts 8⟩ :=
  ⟨(scroll_convergence_amended plateauScrollEnv 8).2.1 2 (by decide),
   (scroll_convergence_amended plateauScrollEnv 8).2.2.2 rfl⟩

/-- C9 counterexample: a run whose DOM-ready fallback wait raises makes
`scroll_to_bottom_enhanced` propagate the exception instead of returning a
count, so the detector is not free of failure modes. -/
theorem scroll_initial_wait_failure :
    scroll_to_bottom_enhanced failScrollEnv 8 = .error ['t'] := rfl
